import Mathlib

/-!
Verification development for the broken-link-checker core: a shallow
embedding of the HTML link scraper (src/unnamed/part_000, the
`scrapeHtml` module), the per-page scan orchestrator
(src/lib/public/HtmlChecker.js) and the URL check queue interface
(src/lib/public/UrlChecker.js), together with theorems settling the
frozen claims about them.

External collaborators (the HTML parser, the `http-equiv-refresh`,
`parse-srcset`, `list-to-array`, `condense-whitespace`, `robot-directives`
and `link-types` packages, the `Link`/`matchUrl`/`transitiveAuth` internal
modules that are not part of the analysed sources, and the
`limited-request-queue` backing the check queue) are modelled as
environment parameters: opaque functions supplied to the embedded code,
exactly where the JavaScript calls out of the analysed files.
-/

namespace BLC

mutual

/-- Parsed HTML node, as produced by the external parser (parse5-style):
elements carry a tag name, an ordered attribute list and ordered children;
text nodes have `nodeName` `"#text"`, comments `"#comment"`, doctypes
`"#documentType"`.  A mutual inductive (with its own child-list type) keeps
every tree-recursive function structurally recursive. -/
inductive Node where
  | element (name : String) (attrs : List (String × String)) (children : NodeList)
  | text (value : String)
  | comment (value : String)
  | doctype

/-- Ordered list of sibling nodes (the `childNodes` array). -/
inductive NodeList where
  | nil
  | cons (head : Node) (tail : NodeList)

end

/-- Convert a child list to a plain `List` for index/count reasoning. -/
def NodeList.toList : NodeList → List Node
  | .nil => []
  | .cons h t => h :: t.toList

/-- The `nodeName` property of a node. -/
def Node.nodeName : Node → String
  | .element n _ _ => n
  | .text _ => "#text"
  | .comment _ => "#comment"
  | .doctype => "#documentType"

/-- Attribute list of a node (empty for non-elements). -/
def Node.attrsOf : Node → List (String × String)
  | .element _ attrs _ => attrs
  | _ => []

/-- Child list of a node; non-elements have no children (in the DOM, text,
comment and doctype nodes have no `childNodes` property). -/
def Node.childrenOf : Node → NodeList
  | .element _ _ cs => cs
  | _ => .nil

/-- Whether a node has a `childNodes` property at all (elements do;
doctype, text and comment nodes do not — `findRootNode` relies on this). -/
def Node.hasChildNodes : Node → Bool
  | .element _ _ _ => true
  | _ => false

/-- Lookup in the parsed attribute map (`node.attrMap`); the parser keeps
the first occurrence of a duplicated attribute name. -/
def attrGet (attrs : List (String × String)) (name : String) : Option String :=
  (attrs.find? (fun a => a.1 == name)).map (·.2)

/-- Whether the node is an element node. -/
def Node.isElement : Node → Bool
  | .element _ _ _ => true
  | _ => false

/-- Model of JavaScript's `String.prototype.trim` (strip leading and
trailing whitespace), computed on the character list so that concrete
instances evaluate. -/
def trimStr (s : String) : String :=
  ⟨((s.data.dropWhile (fun c => c.isWhitespace)).reverse.dropWhile
      (fun c => c.isWhitespace)).reverse⟩

/-- Model of JavaScript's `String.prototype.toLowerCase`, computed on
the character list so that concrete instances evaluate. -/
def toLowerStr (s : String) : String :=
  ⟨s.data.map (fun c => c.toLower)⟩

/-! ### The tag/attribute filter-level tables -/

/-- A filter-level table: element name to the attribute names that may
carry a URL in that element. -/
abbrev TagTable := List (String × List String)

/-- Lookup of `table[tagName]`. -/
def lookupTag (table : TagTable) (tag : String) : Option (List String) :=
  (table.find? (fun e => e.1 == tag)).map (·.2)

/-- Modelled from the spec: the `tags` module (`lib/internal/tags`, not
under the analysed sources) — a list of filter-level tables forming "a
graduated scale from minimal to maximal element coverage", each mapping
element name to the set of attribute names that may carry a URL.  Level 0
is minimal (anchors only); the last level is maximal and covers every
URL-carrying tag/attribute location the scraper handles, including
`meta[content]`, `ping` and `srcset`. -/
def tags : List TagTable :=
  [ [ ("a", ["href"]), ("area", ["href"]) ],
    [ ("a", ["href"]), ("area", ["href"]), ("iframe", ["src"]),
      ("img", ["src"]), ("link", ["href"]) ],
    [ ("a", ["href"]), ("area", ["href"]), ("audio", ["src"]),
      ("blockquote", ["cite"]), ("del", ["cite"]), ("form", ["action"]),
      ("iframe", ["src"]), ("img", ["src"]), ("input", ["src"]),
      ("ins", ["cite"]), ("link", ["href"]), ("menuitem", ["icon"]),
      ("q", ["cite"]), ("script", ["src"]), ("source", ["src"]),
      ("track", ["src"]), ("video", ["poster", "src"]) ],
    [ ("a", ["href", "ping"]), ("area", ["href", "ping"]),
      ("audio", ["src"]), ("blockquote", ["cite"]), ("del", ["cite"]),
      ("form", ["action"]), ("iframe", ["src"]),
      ("img", ["src", "srcset"]), ("input", ["src"]), ("ins", ["cite"]),
      ("link", ["href"]), ("menuitem", ["icon"]),
      ("meta", ["content"]), ("q", ["cite"]), ("script", ["src"]),
      ("source", ["src", "srcset"]), ("track", ["src"]),
      ("video", ["poster", "src"]) ] ]

/-- The scraper's table: `tags[tags.length - 1]`, the maximal level
(`maxFilterLevel` in the source). -/
def maxFilterLevel : TagTable := tags.getD (tags.length - 1) []

/-! ### The scraper environment -/

/-- External parsing collaborators used by the scraper: the
`http-equiv-refresh` meta-refresh parser (returning the embedded URL, if
any), the `list-to-array` comma splitter used for `ping`, the
`parse-srcset` descriptor parser (already projected to the image URLs),
the `robot-directives` bot-name recogniser, and the `condense-whitespace`
normaliser used for link text. -/
structure ScraperEnv where
  parseMetaRefreshUrl : String → Option String
  list2Array : String → List String
  parseSrcsetUrls : String → List String
  isBot : String → Bool
  condenseWhitespace : String → String

/-- One callback invocation of `findLinks`: the visited element (its path
from the document root, its tag name and attribute list), the recognized
attribute name, and one extracted candidate URL string. -/
structure Candidate where
  path : List Nat
  tagName : String
  attrs : List (String × String)
  attrName : String
  url : String
deriving DecidableEq, Repr

/-- Candidate URL strings extracted from one recognized attribute,
following the `switch` in `findLinks`: `content` is only a candidate on a
`http-equiv="refresh"` element and yields the meta-refresh embedded URL;
`ping` splits on commas; `srcset` yields each image URL; every other
attribute yields its whitespace-trimmed value. -/
def extractUrls (env : ScraperEnv) (attrs : List (String × String))
    (attrName : String) : List String :=
  match attrGet attrs attrName with
  | none => []
  | some v =>
    if attrName = "content" then
      match attrGet attrs "http-equiv" with
      | some he =>
        if toLowerStr he = "refresh" then
          match env.parseMetaRefreshUrl v with
          | some u => [u]
          | none => []
        else []
      | none => []
    else if attrName = "ping" then env.list2Array v
    else if attrName = "srcset" then env.parseSrcsetUrls v
    else [trimStr v]

/-- The `findLinks` walk callback body for one node, parameterised by the
lookup table (`maxFilterLevel` in the source): if the element is in the
table, loop over its attributes in order and extract the candidate URLs
of each recognized attribute. -/
def visitNodeT (table : TagTable) (env : ScraperEnv) (path : List Nat) :
    Node → List Candidate
  | .element name attrs _ =>
    match lookupTag table name with
    | none => []
    | some linkAttrs =>
      (attrs.map (·.1)).flatMap (fun attrName =>
        if linkAttrs.contains attrName then
          (extractUrls env attrs attrName).map
            (fun u => ⟨path, name, attrs, attrName, u⟩)
        else [])
  | _ => []

mutual

/-- Pre-order traversal of `findLinks` (the `walk` helper with the
`findLinks` callback, which never aborts): the node's own candidates,
then its children's, in document order.  `path` is the node's position
(sequence of child indices) from the document root. -/
def findLinksNodeT (table : TagTable) (env : ScraperEnv) (path : List Nat) :
    Node → List Candidate
  | .element name attrs cs =>
    visitNodeT table env path (.element name attrs cs) ++
      findLinksListT table env path 0 cs
  | n => visitNodeT table env path n

/-- Traversal of a child list, numbering children from `i`. -/
def findLinksListT (table : TagTable) (env : ScraperEnv) (path : List Nat)
    (i : Nat) : NodeList → List Candidate
  | .nil => []
  | .cons c cs =>
    findLinksNodeT table env (path ++ [i]) c ++
      findLinksListT table env path (i + 1) cs

end

/-- The source's `findLinks`: the traversal with the maximal filter-level
table (`maxFilterLevel`), reporting each candidate via the callback. -/
def findLinks (env : ScraperEnv) (path : List Nat) (root : Node) :
    List Candidate :=
  findLinksNodeT maxFilterLevel env path root

/-- Definition following the claim's words (for comparison with
`findLinks`): the same traversal but with the table selected by the
caller-configured filter level, so that an element absent from that
level's table is skipped. -/
def findLinksClaim (filterLevel : Nat) (env : ScraperEnv) (path : List Nat)
    (root : Node) : List Candidate :=
  findLinksNodeT (tags.getD filterLevel []) env path root

/-! ### The preliminary pass: base URL and robots meta cascade -/

/-- Accumulated result of `findPreliminaries`: the effective base href and
the `(name, content)` pairs fed to the robots collector, in document
order (the source calls `robots.meta(name, content)` directly; the model
records the calls, the collector itself being an external collaborator). -/
structure Prelim where
  base : Option String
  robotsMeta : List (String × String)
deriving DecidableEq, Repr

/-- The `findPreliminaries` walk callback for one node (`robotsReq` is
whether a robots collector was supplied): a `<base>` element with an
`href` attribute fills `base` if it is still unset; a `<meta>` element
with `name` and `content` attributes whose trimmed lower-cased name is
`robots` or a recognized bot name is fed to the collector.  Returns the
updated state and whether the walk continues (it aborts once a base is
found when no robots collector was requested). -/
def prelimVisit (env : ScraperEnv) (robotsReq : Bool) (st : Prelim) :
    Node → Prelim × Bool
  | .element name attrs _ =>
    let st :=
      if name = "base" then
        if st.base = none ∧ (attrGet attrs "href").isSome then
          { st with base := some (trimStr ((attrGet attrs "href").getD "")) }
        else st
      else if name = "meta" then
        if robotsReq ∧ (attrGet attrs "name").isSome ∧
            (attrGet attrs "content").isSome then
          let nm := toLowerStr (trimStr ((attrGet attrs "name").getD ""))
          if nm = "robots" ∨ env.isBot nm then
            { st with robotsMeta :=
                st.robotsMeta ++ [(nm, (attrGet attrs "content").getD "")] }
          else st
        else st
      else st
    (st, !(st.base.isSome && !robotsReq))
  | _ => (st, !(st.base.isSome && !robotsReq))

mutual

/-- The early-abort `walk` of `findPreliminaries` on one node: visit, then
descend into the children unless the visit killed the walk. -/
def prelimWalk (env : ScraperEnv) (robotsReq : Bool) (st : Prelim) :
    Node → Prelim × Bool
  | .element name attrs cs =>
    match prelimVisit env robotsReq st (.element name attrs cs) with
    | (st, false) => (st, false)
    | (st, true) => prelimWalkList env robotsReq st cs
  | n =>
    match prelimVisit env robotsReq st n with
    | (st, cont) => (st, cont)

/-- The early-abort walk over a child list. -/
def prelimWalkList (env : ScraperEnv) (robotsReq : Bool) (st : Prelim) :
    NodeList → Prelim × Bool
  | .nil => (st, true)
  | .cons c cs =>
    match prelimWalk env robotsReq st c with
    | (st, false) => (st, false)
    | (st, true) => prelimWalkList env robotsReq st cs

end

/-- The source's `findPreliminaries`, run from the root node. -/
def findPreliminaries (env : ScraperEnv) (robotsReq : Bool) (root : Node) :
    Prelim :=
  (prelimWalk env robotsReq { base := none, robotsMeta := [] } root).1

mutual

/-- Pre-order node list of a subtree (the visit order of `walk`). -/
def preorder : Node → List Node
  | .element name attrs cs => .element name attrs cs :: preorderList cs
  | n => [n]

/-- Pre-order node list of a child list. -/
def preorderList : NodeList → List Node
  | .nil => []
  | .cons c cs => preorder c ++ preorderList cs

end

/-- Definition following the claim's words, amended to the code's actual
base rule (for comparison with `findPreliminaries`): the trimmed `href` of
the first `<base>` element in document order that has an `href` attribute
at all; elements without `href` are skipped and later ones considered. -/
def firstBaseHref (root : Node) : Option String :=
  ((preorder root).find? (fun n =>
      n.nodeName == "base" && (attrGet n.attrsOf "href").isSome)).bind
    (fun n => (attrGet n.attrsOf "href").map (fun v => trimStr v))

mutual

/-- Recursive form of the base-URL rule the walk implements: the first
`<base>` element in pre-order with an `href` attribute present wins, its
value trimmed. -/
def firstBaseOf : Node → Option String
  | .element name attrs cs =>
    if name == "base" && (attrGet attrs "href").isSome then
      (attrGet attrs "href").map (fun v => trimStr v)
    else firstBaseOfList cs
  | _ => none

/-- Recursive base-URL rule over a child list. -/
def firstBaseOfList : NodeList → Option String
  | .nil => none
  | .cons c cs =>
    match firstBaseOf c with
    | some b => some b
    | none => firstBaseOfList cs

end

/-- Definition following the claim's words as stated: the href of the
first `<base>` element in document order whose `href` attribute is
non-empty; elements without a non-empty `href` are skipped and later ones
considered. -/
def firstBaseHrefClaim (root : Node) : Option String :=
  ((preorder root).find? (fun n =>
      n.nodeName == "base" &&
        !((attrGet n.attrsOf "href").getD "" == ""))).bind
    (fun n => attrGet n.attrsOf "href")

/-! ### CSS selector reconstruction -/

/-- Child list found by following a path of child indices from the
document root (the empty path is the document's own child list). -/
def childrenAt (roots : NodeList) : List Nat → Option NodeList
  | [] => some roots
  | i :: p =>
    match roots.toList.get? i with
    | some n => childrenAt n.childrenOf p
    | none => none

/-- Node at a non-empty path of child indices from the document root. -/
def nodeAt (roots : NodeList) (path : List Nat) : Option Node :=
  match path.getLast? with
  | none => none
  | some i => (childrenAt roots path.dropLast).bind (fun cs => cs.toList.get? i)

/-- Whether the first character of a node name is `#` (the
`child.nodeName[0] !== "#"` test of `getNthIndex`, which is how the source
tells elements from text/comment/doctype nodes). -/
def headIsHash (s : String) : Bool := s.toList.head? == some '#'

/-- The counting loop of `getNthIndex`: walking the parent's children in
order up to (but excluding) the node's position, counting those whose
name does not start with `#`.  The source breaks at the node itself
(compared by identity); in the path model the node is addressed by its
position `i`. -/
def nthLoop : List Node → Nat → Nat
  | _, 0 => 0
  | [], _ + 1 => 0
  | c :: cs, i + 1 => (if headIsHash c.nodeName then 0 else 1) + nthLoop cs i

/-- The source's `getNthIndex`: 1-based `:nth-child()` index of the node
at position `i` among `siblings`. -/
def getNthIndex (siblings : List Node) (i : Nat) : Nat :=
  nthLoop siblings i + 1

/-- One selector segment as built inside the `getSelector` loop for the
node at index `i` of `siblings`: the node name, suffixed with
`:nth-child(...)` unless the name is `html`, `body` or `head`.  (The
source writes the three-way name test with a bitwise `&` on the last two
comparisons, which on booleans is equivalent to `&&`.) -/
def codeSeg (siblings : List Node) (i : Nat) : String :=
  let name := (siblings.getD i .doctype).nodeName
  if name ≠ "html" ∧ (name ≠ "body" ∧ name ≠ "head") then
    name ++ ":nth-child(" ++ toString (getNthIndex siblings i) ++ ")"
  else name

/-- The `getSelector` climb, on the reversed path: the segment of the
current node, then the segments of its ancestors (the source pushes onto
an array while following `parentNode` until it reaches `#document`, which
in the path model is the empty path). -/
def segsRev (roots : NodeList) : List Nat → List String
  | [] => []
  | i :: rp =>
    codeSeg ((childrenAt roots rp.reverse).getD .nil).toList i :: segsRev roots rp

/-- The source's `getSelector` for the node at `path`: build the segments
backwards (bottom-up), then reverse and join with `" > "`. -/
def getSelector (roots : NodeList) (path : List Nat) : String :=
  String.intercalate " > " (segsRev roots path.reverse).reverse

/-- One selector segment following the claim's words: the ancestor's tag
name, with an `:nth-child(k)` suffix for every element whose name is not
`html`, `head` or `body`, where `k` is one plus the number of preceding
element siblings (text and comment nodes excluded). -/
def claimSeg (roots : NodeList) (p : List Nat) : String :=
  let siblings := ((childrenAt roots p.dropLast).getD .nil).toList
  let i := p.getLastD 0
  let name := (siblings.getD i .doctype).nodeName
  if name ≠ "html" ∧ name ≠ "head" ∧ name ≠ "body" then
    name ++ ":nth-child(" ++ toString ((siblings.take i).countP (Node.isElement ·) + 1) ++ ")"
  else name

/-- The selector following the claim's words: the per-ancestor segments
taken top-down (one per non-empty prefix of the path) joined with
`" > "`. -/
def selectorClaim (roots : NodeList) (path : List Nat) : String :=
  String.intercalate " > "
    ((List.range path.length).map (fun k => claimSeg roots (path.take (k + 1))))

mutual

/-- Well-formed parser output: no element's tag name starts with `#`
(reserved by the parser for non-element nodes such as `#text` and
`#comment`). -/
def namesOk : Node → Bool
  | .element nm _ cs => !headIsHash nm && namesOkList cs
  | _ => true

/-- Well-formedness of every node in a child list. -/
def namesOkList : NodeList → Bool
  | .nil => true
  | .cons c cs => namesOk c && namesOkList cs

end

/-! ### Text extraction, tag serialization, root node -/

mutual

/-- Concatenation of all descendant text-node values in pre-order (the
`walk` inside `getText`). -/
def textConcat : Node → String
  | .text v => v
  | .element _ _ cs => textConcatList cs
  | _ => ""

/-- Text concatenation over a child list. -/
def textConcatList : NodeList → String
  | .nil => ""
  | .cons c cs => textConcat c ++ textConcatList cs

end

/-- The source's `getText`: `null` when the node has no child nodes,
otherwise the concatenated descendant text run through the
`condense-whitespace` normaliser. -/
def getText (env : ScraperEnv) (n : Node) : Option String :=
  if 0 < n.childrenOf.toList.length then
    some (env.condenseWhitespace (textConcat n))
  else none

/-- The source's `stringifyNode`: reconstructed opening tag. -/
def stringifyNode (name : String) (attrs : List (String × String)) : String :=
  "<" ++ name ++
    (attrs.foldl (fun r a => r ++ " " ++ a.1 ++ "=\x22" ++ a.2 ++ "\x22") "") ++
    ">"

/-- The source's `findRootNode`: the first document child that has a
`childNodes` property (doctype nodes do not), together with its index so
the model can address it by path. -/
def findRootNode (roots : List Node) : Option (Nat × Node) :=
  (roots.enum).find? (fun p => p.2.hasChildNodes)

/-! ### The Link record and scrapeHtml -/

/-- Rebased (absolute) URL of a link, as far as the filter chain inspects
it: its scheme (`protocol`) and serialization (`href`). -/
structure UrlRebased where
  protocol : String
  href : String
deriving DecidableEq, Repr

/-- Result of the external `Link.resolve` (the `Link` module is not among
the analysed sources): the rebased URL and the internal/same-page
classification, each `none` when resolution could not decide it. -/
structure ResolveOut where
  rebased : UrlRebased
  internal : Option Bool
  samePage : Option Bool
deriving DecidableEq, Repr

/-- Signature of the external `Link.resolve`, as called by `scrapeHtml`:
effective base href, page URL, raw candidate URL. -/
abbrev ResolveFn := Option String → String → String → ResolveOut

/-- The Link record, with the `html.*` sub-object flattened into the
record (the parser's raw source-location metadata is omitted: no claim
inspects it).  Fields that the source initialises to `null` and fills
later are `Option`s. -/
structure LinkRec where
  attrs : Option (List (String × String))
  attrName : String
  base : Option String
  index : Nat
  selector : String
  tag : String
  tagName : String
  text : Option String
  urlOriginal : String
  rebased : UrlRebased
  internal : Option Bool
  samePage : Option Bool
  offsetIndex : Option Int
  excluded : Option Bool
  excludedReason : Option String
  broken : Option Bool
  brokenReason : Option String
deriving DecidableEq, Repr

/-- The source's `scrapeHtml`: locate the root element, run the
preliminary pass, then emit one Link per `findLinks` callback in document
order, with `html.index` equal to the number of links emitted so far and
the source metadata captured from the visited node. -/
def scrapeHtml (env : ScraperEnv) (resolve : ResolveFn) (docRoots : NodeList)
    (pageUrl : String) (robotsReq : Bool) : List LinkRec :=
  match findRootNode docRoots.toList with
  | none => []
  | some (ri, root) =>
    let prelim := findPreliminaries env robotsReq root
    ((findLinks env [ri] root).enum).map (fun p =>
      let c := p.2
      let r := resolve prelim.base pageUrl c.url
      { attrs := some c.attrs
        attrName := c.attrName
        base := prelim.base
        index := p.1
        selector := getSelector docRoots c.path
        tag := stringifyNode c.tagName c.attrs
        tagName := c.tagName
        text := (nodeAt docRoots c.path).bind (fun n => getText env n)
        urlOriginal := c.url
        rebased := r.rebased
        internal := r.internal
        samePage := r.samePage
        offsetIndex := none
        excluded := none
        excludedReason := none
        broken := none
        brokenReason := none })

/-! ### The orchestrator: options, filter chain (HtmlChecker.js) -/

/-- Robots directive state relevant to the filter chain, abstracting the
external `robot-directives` collector: whether the accumulated directives
assert `NOFOLLOW`, `NOINDEX`, `NOIMAGEINDEX` for the configured user
agent (`robots.is` / `robots.oneIs` project to these three booleans). -/
structure Robots where
  nofollow : Bool
  noindex : Bool
  noimageindex : Bool
deriving DecidableEq, Repr

/-- A fresh, empty robots collector (`new RobotDirectives(...)`): no
directive applies yet. -/
def Robots.fresh : Robots := ⟨false, false, false⟩

/-- Return value of the caller-supplied custom filter: the documented
boolean form, or the undocumented object form carrying its own
`excluded` flag and `excludedReason`. -/
inductive FilterResult where
  | bool (b : Bool)
  | obj (excluded : Bool) (excludedReason : String)
deriving DecidableEq, Repr

/-- Parsed orchestrator options, restricted to the fields the filter
chain reads.  `excludedSchemes` is the scheme lookup object
(`opts.excludedSchemes[protocol]`). -/
structure Options where
  tags : List TagTable
  filterLevel : Nat
  excludeExternalLinks : Bool
  excludeInternalLinks : Bool
  excludeLinksToSamePage : Bool
  excludedSchemes : String → Bool
  honorRobotExclusions : Bool
  excludedKeywords : List String
  customFilter : LinkRec → FilterResult

/-- External helpers the filter chain calls: the `matchUrl` internal
module (keyword blacklist matching, not among the analysed sources) and
the `link-types` package's `nofollow` test on a `rel` attribute value. -/
structure CheckerEnv where
  matchUrl : String → List String → Bool
  relNofollow : String → Bool

/-- Truthiness of a nullable boolean field (JavaScript `if (x)` on a
value that is `true`, `false` or `null`). -/
def isTruthy : Option Bool → Bool
  | some true => true
  | _ => false

/-- Strict equality with `false` (JavaScript `x === false` on a value
that is `true`, `false` or `null`). -/
def isStrictFalse : Option Bool → Bool
  | some false => true
  | _ => false

/-- Rule 1 test of the filter chain: the link's tag/attribute pair is in
the table of the configured filter level (`opts.tags[opts.filterLevel]`,
then `tagGroup[attrName]`). -/
def tagRecognized (opts : Options) (tagName attrName : String) : Bool :=
  match lookupTag (opts.tags.getD opts.filterLevel []) tagName with
  | none => false
  | some grp => grp.contains attrName

/-- The source's `isRobotAttr`: the tag/attribute pairs treated as
image-like locations for `NOIMAGEINDEX`. -/
def isRobotAttr (tagName attrName : String) : Bool :=
  (tagName == "img" && attrName == "src") ||
  (tagName == "input" && attrName == "src") ||
  (tagName == "menuitem" && attrName == "icon") ||
  (tagName == "video" && attrName == "poster")

/-- Rule 8 test: the element has a `rel` attribute carrying a nofollow
link type (`link.html.attrs != null && link.html.attrs.rel != null &&
linkTypes(link.html.attrs.rel).nofollow`). -/
def relHasNofollow (env : CheckerEnv) (link : LinkRec) : Bool :=
  match link.attrs with
  | none => false
  | some attrs =>
    match attrGet attrs "rel" with
    | none => false
    | some rel => env.relNofollow rel

/-- Whether the custom filter result marks the link excluded (the object
form by its `excluded` flag, the boolean form when falsy). -/
def customExcludes : FilterResult → Bool
  | .bool b => !b
  | .obj e _ => e

/-- The reason an excluding custom filter result reports (the object's
stated reason, or `BLC_CUSTOM` for the boolean form). -/
def customReason : FilterResult → String
  | .bool _ => "BLC_CUSTOM"
  | .obj _ r => r

/-- The source's `maybeExcludeLink`: the ten-rule `else if` chain, in
source order, returning the first matching rule's reason (`some reason`)
or `none` (the source's `false`) when no rule matches. -/
def maybeExcludeLink (env : CheckerEnv) (opts : Options) (robots : Robots)
    (link : LinkRec) : Option String :=
  if !tagRecognized opts link.tagName link.attrName then some "BLC_HTML"
  else if opts.excludeExternalLinks && isStrictFalse link.internal then
    some "BLC_EXTERNAL"
  else if opts.excludeInternalLinks && isTruthy link.internal then
    some "BLC_INTERNAL"
  else if opts.excludeLinksToSamePage && isTruthy link.samePage then
    some "BLC_SAMEPAGE"
  else if opts.excludedSchemes link.rebased.protocol then some "BLC_SCHEME"
  else if opts.honorRobotExclusions && (robots.nofollow || robots.noindex) then
    some "BLC_ROBOTS"
  else if opts.honorRobotExclusions && robots.noimageindex &&
      isRobotAttr link.tagName link.attrName then some "BLC_ROBOTS"
  else if opts.honorRobotExclusions && relHasNofollow env link then
    some "BLC_ROBOTS"
  else if env.matchUrl link.rebased.href opts.excludedKeywords then
    some "BLC_KEYWORD"
  else
    match opts.customFilter link with
    | .obj e r => if e then some r else none
    | .bool b => if b then none else some "BLC_CUSTOM"

/-- The filter chain as a list of (test, reason) pairs, in the order the
claim lists them: unsupported-html-location, external, internal,
same-page, scheme, robots blanket, robots no-image-index, robots
rel-nofollow, keyword, custom. -/
def filterRules (env : CheckerEnv) (opts : Options) (robots : Robots)
    (link : LinkRec) : List (Bool × String) :=
  [ (!tagRecognized opts link.tagName link.attrName, "BLC_HTML"),
    (opts.excludeExternalLinks && isStrictFalse link.internal, "BLC_EXTERNAL"),
    (opts.excludeInternalLinks && isTruthy link.internal, "BLC_INTERNAL"),
    (opts.excludeLinksToSamePage && isTruthy link.samePage, "BLC_SAMEPAGE"),
    (opts.excludedSchemes link.rebased.protocol, "BLC_SCHEME"),
    (opts.honorRobotExclusions && (robots.nofollow || robots.noindex), "BLC_ROBOTS"),
    (opts.honorRobotExclusions && robots.noimageindex &&
       isRobotAttr link.tagName link.attrName, "BLC_ROBOTS"),
    (opts.honorRobotExclusions && relHasNofollow env link, "BLC_ROBOTS"),
    (env.matchUrl link.rebased.href opts.excludedKeywords, "BLC_KEYWORD"),
    (customExcludes (opts.customFilter link),
       customReason (opts.customFilter link)) ]

/-- First-match semantics over a rule list: the reason of the earliest
rule whose test holds, if any. -/
def firstMatchReason (rules : List (Bool × String)) : Option String :=
  (rules.find? (fun r => r.1)).map (fun r => r.2)

/-! ### The orchestrator: state machine (HtmlChecker.js) -/

/-- Per-instance mutable fields of the orchestrator, exactly those the
source's `reset` assigns: the active flag, transitive auth, effective
base URL, the exclusion counter, the (always-null) `linkEnqueued` slot,
the parsed flag and the robots collector. -/
structure HtmlCheckerState where
  active : Bool
  auth : Option String
  baseUrl : Option String
  excludedLinks : Nat
  linkEnqueued : Option Unit
  parsed : Bool
  robots : Option Robots
deriving DecidableEq, Repr

/-- The source's `reset`: assigns every per-scan field its idle value. -/
def resetFn (s : HtmlCheckerState) : HtmlCheckerState :=
  { s with
    active := false
    auth := none
    baseUrl := none
    excludedLinks := 0
    linkEnqueued := none
    parsed := false
    robots := none }

/-- The state the constructor leaves the instance in (it calls `reset`,
which assigns every field this idle value regardless of the prior
state). -/
def initialState : HtmlCheckerState :=
  ⟨false, none, none, 0, none, false, none⟩

/-- Observer notification, as emitted by the orchestrator.  The
`complete` event carries the instance state observable at emission time
(the event itself has no payload, but listeners read the instance's
fields through the closure). -/
inductive Event where
  | html
  | link (l : LinkRec)
  | junk (l : LinkRec)
  | complete (observable : HtmlCheckerState)
deriving DecidableEq, Repr

/-- Whether an event is the `complete` notification. -/
def Event.isComplete : Event → Bool
  | .complete _ => true
  | _ => false

/-- The source's `complete`: call `reset`, then emit `"complete"` (so a
listener observes the already-reset instance). -/
def completeFn (s : HtmlCheckerState) : HtmlCheckerState × List Event :=
  let s := resetFn s
  (s, [Event.complete s])

/-- Definition following the claim's words (for comparison with
`completeFn`): emit the `"complete"` notification first (the listener
observing the pre-reset state), then reset the per-scan fields and
return to idle. -/
def completeClaim (s : HtmlCheckerState) : HtmlCheckerState × List Event :=
  (resetFn s, [Event.complete s])

/-- Result of the external check queue's `enqueue`
(`UrlChecker.enqueue`, which forwards the link's rebased URL to the
`limited-request-queue`): a numeric id, or `none` (the source's
`undefined`) when the link cannot be scheduled — e.g. its URL is
unparsable.  Called with the instance's transitive auth. -/
abbrev EnqueueFn := Option String → LinkRec → Option Nat

/-- Output of processing one link (or a list of links) through
`maybeEnqueueLink`: the updated exclusion counter, the links with their
stamps, the notifications emitted, and the items actually submitted to
the check queue (id paired with the submitted link). -/
structure ProcessOut where
  counter : Nat
  links : List LinkRec
  events : List Event
  queued : List (Nat × LinkRec)
deriving DecidableEq, Repr

/-- The source's `maybeEnqueueLink` for one link: run the filter chain;
if excluded, stamp `offsetIndex` with the running exclusion count,
increment it, mark excluded and emit `"junk"`; otherwise stamp
`offsetIndex` with `index - excludedLinks`, mark included and enqueue —
an enqueue returning `undefined` marks the link broken with reason
`BLC_INVALID` and emits it as a `"link"` notification immediately,
without it ever entering the queue. -/
def maybeEnqueueLink (env : CheckerEnv) (opts : Options) (robots : Robots)
    (enq : EnqueueFn) (auth : Option String) (counter : Nat)
    (link : LinkRec) : ProcessOut :=
  match maybeExcludeLink env opts robots link with
  | some reason =>
    let l := { link with
               offsetIndex := some (counter : Int)
               excluded := some true
               excludedReason := some reason }
    ⟨counter + 1, [l], [Event.junk l], []⟩
  | none =>
    let l := { link with
               offsetIndex := some ((link.index : Int) - (counter : Int))
               excluded := some false }
    match enq auth l with
    | none =>
      let l := { l with broken := some true, brokenReason := some "BLC_INVALID" }
      ⟨counter, [l], [Event.link l], []⟩
    | some id => ⟨counter, [l], [], [(id, l)]⟩

/-- The `links.forEach(link => maybeEnqueueLink(this, link))` loop:
process each scraped link in document order, threading the exclusion
counter. -/
def processLinks (env : CheckerEnv) (opts : Options) (robots : Robots)
    (enq : EnqueueFn) (auth : Option String) (counter : Nat) :
    List LinkRec → ProcessOut
  | [] => ⟨counter, [], [], []⟩
  | link :: rest =>
    let r := maybeEnqueueLink env opts robots enq auth counter link
    let rr := processLinks env opts robots enq auth r.counter rest
    ⟨rr.counter, r.links ++ rr.links, r.events ++ rr.events,
      r.queued ++ rr.queued⟩

/-- Result of the external `transitiveAuth` helper (`lib/internal/
transitiveAuth`, not among the analysed sources): the effective page URL
and the transitive auth derived from the requested base URL and
credentials. -/
abbrev TransitiveAuthFn := String → Option String → String × Option String

/-- The synchronous part of the source's `scan`: reject (returning
`false`, with no field writes and no notifications) while a scan is
active; otherwise normalise the robots argument, resolve transitive
auth, set the per-scan fields and return `true` (HTML parsing and
scraping continue asynchronously). -/
def scanSync (ta : TransitiveAuthFn) (s : HtmlCheckerState) (baseUrl : String)
    (robots : Option Robots) (auth : Option String) :
    Bool × HtmlCheckerState × List Event :=
  if s.active then (false, s, [])
  else
    let robots := match robots with
      | some r => r
      | none => Robots.fresh
    let t := ta baseUrl auth
    (true, { s with
             active := true
             auth := t.2
             baseUrl := some t.1
             robots := some robots }, [])

/-- Environment of a scan run: the filter-chain helpers, the parsed
options, the queue's enqueue primitive and the `transitiveAuth` helper. -/
structure OrchEnv where
  cenv : CheckerEnv
  opts : Options
  enq : EnqueueFn
  ta : TransitiveAuthFn

/-- One asynchronous stimulus of a scan, as the orchestrator observes it:
the initial `scan()` call; the HTML-parse promise resolving with the
scraped links (`queueEmpty` is whether the check queue has zero active
and zero queued items at that moment); the check queue's `"end"`
notification. -/
inductive ScanStep where
  | scanCall (baseUrl : String) (robots : Option Robots) (auth : Option String)
  | parseDone (links : List LinkRec) (queueEmpty : Bool)
  | queueEnd

/-- The orchestrator's reaction to one stimulus.  `scanCall` runs the
synchronous part of `scan`.  `parseDone` runs the parse continuation:
emit `"html"`, filter-and-enqueue every link, set the parsed flag, and
complete immediately when the queue is already drained.  `queueEnd` runs
the constructor's `"end"` handler: complete only if the parsed flag is
set. -/
def stepFn (env : OrchEnv) (s : HtmlCheckerState) :
    ScanStep → HtmlCheckerState × List Event
  | .scanCall baseUrl robots auth =>
    let r := scanSync env.ta s baseUrl robots auth
    (r.2.1, r.2.2)
  | .parseDone links queueEmpty =>
    let robots := s.robots.getD Robots.fresh
    let p := processLinks env.cenv env.opts robots env.enq s.auth
      s.excludedLinks links
    let s := { s with excludedLinks := p.counter, parsed := true }
    if queueEmpty then
      let c := completeFn s
      (c.1, Event.html :: p.events ++ c.2)
    else (s, Event.html :: p.events)
  | .queueEnd =>
    if s.parsed then completeFn s else (s, [])

/-- A run of the orchestrator: fold the stimuli over the state,
accumulating all emitted notifications in order. -/
def run (env : OrchEnv) (s : HtmlCheckerState) : List ScanStep →
    HtmlCheckerState × List Event
  | [] => (s, [])
  | st :: rest =>
    let r := stepFn env s st
    let rr := run env r.1 rest
    (rr.1, r.2 ++ rr.2)

/-- Whether a processed link was marked excluded. -/
def isExcludedLink (l : LinkRec) : Bool := l.excluded == some true

/-- Whether a processed link was marked included (non-excluded). -/
def isIncludedLink (l : LinkRec) : Bool := l.excluded == some false

/-- Number of `"complete"` notifications in an event list. -/
def countComplete (evs : List Event) : Nat :=
  evs.countP (fun e => e.isComplete)

/-- The arithmetic sequence `some base, some (base+1), ...` of length `k`
(the shape taken by the offset indices of consecutive non-excluded
links). -/
def offsetSeq (base : Int) : Nat → List (Option Int)
  | 0 => []
  | k + 1 => some base :: offsetSeq (base + 1) k

/-! ### Concrete instances used by witnesses and counterexamples -/

/-- A trivial scraper environment for concrete evaluations (the claims it
serves do not exercise the external parsers). -/
def scraperEnv0 : ScraperEnv :=
  { parseMetaRefreshUrl := fun _ => none
    list2Array := fun _ => []
    parseSrcsetUrls := fun _ => []
    isBot := fun _ => false
    condenseWhitespace := fun s => s }

/-- A trivial filter-chain helper environment for concrete evaluations. -/
def cenv0 : CheckerEnv :=
  { matchUrl := fun _ _ => false
    relNofollow := fun _ => false }

/-- Permissive options at the maximal filter level: no optional exclusion
is enabled and the custom filter accepts everything. -/
def optsPermissive : Options :=
  { tags := tags
    filterLevel := 3
    excludeExternalLinks := false
    excludeInternalLinks := false
    excludeLinksToSamePage := false
    excludedSchemes := fun _ => false
    honorRobotExclusions := false
    excludedKeywords := []
    customFilter := fun _ => .bool true }

/-- Options that both exclude external links and blacklist every scheme,
so that filter rules 2 and 5 match simultaneously. -/
def optsMulti : Options :=
  { optsPermissive with
    excludeExternalLinks := true
    excludedSchemes := fun _ => true }

/-- A blank link record (the fields `Link.create` initialises to null). -/
def blankLink : LinkRec :=
  { attrs := none
    attrName := ""
    base := none
    index := 0
    selector := ""
    tag := ""
    tagName := ""
    text := none
    urlOriginal := ""
    rebased := ⟨"", ""⟩
    internal := none
    samePage := none
    offsetIndex := none
    excluded := none
    excludedReason := none
    broken := none
    brokenReason := none }

/-- An external anchor link (recognized at the maximal level). -/
def linkExternal : LinkRec :=
  { blankLink with
    attrName := "href"
    tagName := "a"
    urlOriginal := "http://elsewhere/"
    rebased := ⟨"http:", "http://elsewhere/"⟩
    internal := some false
    samePage := some false }

/-- A mid-scan orchestrator state with a non-trivial exclusion counter,
used to observe what the `"complete"` listener sees. -/
def c8State : HtmlCheckerState :=
  ⟨true, some "user:pass", some "http://page/", 5, none, true, some Robots.fresh⟩

/-- A concrete orchestrator environment: permissive options, a queue that
accepts everything with id 1, identity transitive auth. -/
def orchEnv0 : OrchEnv :=
  { cenv := cenv0
    opts := optsPermissive
    enq := fun _ _ => some 1
    ta := fun u a => (u, a) }

/-- First scraped link of the three-link offset-index example: an anchor
at document index 0. -/
def linkA0 : LinkRec :=
  { blankLink with tagName := "a", attrName := "href", index := 0 }

/-- Second scraped link of the offset-index example: an unrecognized
tag/attribute location at document index 1 (excluded as `BLC_HTML`). -/
def linkDiv1 : LinkRec :=
  { blankLink with tagName := "div", attrName := "x", index := 1 }

/-- Third scraped link of the offset-index example: an anchor at document
index 2. -/
def linkA2 : LinkRec :=
  { blankLink with tagName := "a", attrName := "href", index := 2 }

/-- The second example link as it leaves the filter pass: stamped with
offset index 0 (no exclusions preceded it) and reason `BLC_HTML`. -/
def linkDiv1Junk : LinkRec :=
  { linkDiv1 with
    offsetIndex := some 0
    excluded := some true
    excludedReason := some "BLC_HTML" }

/-- Example document for the whitespace-trim claim: an anchor whose
`href` is all spaces. -/
def docTrim : Node :=
  .element "html" []
    (.cons (.element "body" []
      (.cons (.element "a" [("href", "   ")] .nil) .nil)) .nil)

/-- Example document for the filter-level claim: an `img` element, which
the minimal (level 0) table does not cover. -/
def docImg : Node :=
  .element "html" []
    (.cons (.element "body" []
      (.cons (.element "img" [("src", "x.png")] .nil) .nil)) .nil)

/-- Example document child-list for the selector claim: a doctype, then
`<html>` with a `<head>` and a `<body>` containing a text node, a
`<div>` and a nested `<a>`. -/
def docSel : NodeList :=
  .cons .doctype
    (.cons (.element "html" []
      (.cons (.element "head" [] .nil)
        (.cons (.element "body" []
          (.cons (.text "hi")
            (.cons (.element "div" []
              (.cons (.element "a" [("href", "u")] .nil) .nil)) .nil))) .nil))) .nil)

/-- Example document for the base-URL claim: a `<base>` with an empty
`href` followed by a `<base>` with a non-empty one. -/
def docBases : Node :=
  .element "html" []
    (.cons (.element "head" []
      (.cons (.element "base" [("href", "")] .nil)
        (.cons (.element "base" [("href", "http://x/")] .nil) .nil))) .nil)

/-! ### Theorems -/

/-- Generic first-match fact about `List.find?`: if the `i`-th entry
satisfies the predicate then `find?` returns some entry at an index
`j ≤ i` that satisfies it. -/
theorem find_earliest {α : Type} (q : α → Bool) :
    ∀ (l : List α) (i : Nat) (h : i < l.length), q (l.get ⟨i, h⟩) = true →
      ∃ (j : Nat) (hj : j < l.length), j ≤ i ∧ q (l.get ⟨j, hj⟩) = true ∧
        l.find? q = some (l.get ⟨j, hj⟩)
  | a :: l, i, h, hq => by
    cases ha : q a with
    | true =>
      exact ⟨0, by simp, Nat.zero_le _, by simpa using ha,
        by simp [List.find?, ha]⟩
    | false =>
      cases i with
      | zero => simp [List.get] at hq; simp [hq] at ha
      | succ i =>
        obtain ⟨j, hj, hji, hqj, hf⟩ :=
          find_earliest q l i (Nat.lt_of_succ_lt_succ h) (by simpa using hq)
        exact ⟨j + 1, Nat.succ_lt_succ hj, Nat.succ_le_succ hji,
          by simpa using hqj, by simp [List.find?, ha, hf]⟩

set_option maxHeartbeats 2000000 in
/-- C1: the ten exclusion rules are evaluated in the fixed listed order
(unsupported-html-location `BLC_HTML`, external, internal, same-page,
scheme, robots blanket, robots no-image-index, robots rel-nofollow,
keyword, custom) and `maybeExcludeLink` reports exactly the first
matching rule's reason; in particular a link matching several rules gets
the earliest-listed rule's reason (the reported reason comes from some
matching rule at an index no later than any given matching rule). -/
theorem filter_chain_first_match (env : CheckerEnv) (opts : Options)
    (robots : Robots) (link : LinkRec) :
    maybeExcludeLink env opts robots link =
      firstMatchReason (filterRules env opts robots link) ∧
    (∀ (i : Nat) (h : i < (filterRules env opts robots link).length),
      ((filterRules env opts robots link).get ⟨i, h⟩).1 = true →
      ∃ (j : Nat) (hj : j < (filterRules env opts robots link).length),
        j ≤ i ∧ ((filterRules env opts robots link).get ⟨j, hj⟩).1 = true ∧
          maybeExcludeLink env opts robots link =
            some ((filterRules env opts robots link).get ⟨j, hj⟩).2) := by
  have chain : ∀ (c : Bool) (r : String) (rest : List (Bool × String)),
      firstMatchReason ((c, r) :: rest) = if c then some r else firstMatchReason rest := by
    intro c r rest
    cases c <;> simp [firstMatchReason, List.find?]
  have hnil : firstMatchReason ([] : List (Bool × String)) = none := rfl
  have heq : maybeExcludeLink env opts robots link =
      firstMatchReason (filterRules env opts robots link) := by
    simp only [maybeExcludeLink, filterRules]
    rw [chain, chain, chain, chain, chain, chain, chain, chain, chain, chain,
      hnil]
    split_ifs with g1 g2 g3 g4 g5 g6 g7 g8 g9 g10
    · rfl
    · rfl
    · rfl
    · rfl
    · rfl
    · rfl
    · rfl
    · rfl
    · rfl
    · cases hf : opts.customFilter link with
      | bool b => rw [hf] at g10; cases b <;> simp_all [customExcludes, customReason]
      | obj e r => rw [hf] at g10; cases e <;> simp_all [customExcludes, customReason]
    · cases hf : opts.customFilter link with
      | bool b => rw [hf] at g10; cases b <;> simp_all [customExcludes, customReason]
      | obj e r => rw [hf] at g10; cases e <;> simp_all [customExcludes, customReason]
  refine ⟨heq, fun i h hq => ?_⟩
  obtain ⟨j, hj, hji, hqj, hf⟩ := find_earliest _ _ i h hq
  exact ⟨j, hj, hji, hqj, by rw [heq]; simp [firstMatchReason, hf]⟩

/-- Witness for C1 at a concrete input: for an external anchor link with
every scheme blacklisted, rules 2 (external) and 5 (scheme) both match,
and the reported reason comes from a matching rule at index at most 1
(it is in fact `BLC_EXTERNAL`, the earliest match). -/
theorem filter_chain_first_match_witness :
    ∃ (j : Nat) (hj : j < (filterRules cenv0 optsMulti Robots.fresh linkExternal).length),
      j ≤ 1 ∧
      ((filterRules cenv0 optsMulti Robots.fresh linkExternal).get ⟨j, hj⟩).1 = true ∧
      maybeExcludeLink cenv0 optsMulti Robots.fresh linkExternal =
        some ((filterRules cenv0 optsMulti Robots.fresh linkExternal).get ⟨j, hj⟩).2 :=
  (filter_chain_first_match cenv0 optsMulti Robots.fresh linkExternal).2
    1 (by decide) (by decide)

/-- C7: a `scan()` call while a scan is active returns `false` and has no
side effects (the state is returned unchanged and no notification is
emitted); a call while idle returns `true`. -/
theorem scan_concurrency_guard :
    (∀ (ta : TransitiveAuthFn) (s : HtmlCheckerState) (u : String)
      (r : Option Robots) (a : Option String), s.active = true →
      scanSync ta s u r a = (false, s, [])) ∧
    (∀ (ta : TransitiveAuthFn) (s : HtmlCheckerState) (u : String)
      (r : Option Robots) (a : Option String), s.active = false →
      (scanSync ta s u r a).1 = true) := by
  constructor <;> intro ta s u r a h <;> simp [scanSync, h]

/-- Witness for C7 at concrete inputs: a busy state rejects the second
scan unchanged, an idle state accepts it. -/
theorem scan_concurrency_guard_witness :
    scanSync (fun u a => (u, a)) c8State "http://other/" none none =
      (false, c8State, []) ∧
    (scanSync (fun u a => (u, a)) initialState "http://page/" none none).1 = true :=
  ⟨scan_concurrency_guard.1 _ _ _ _ _ rfl,
   scan_concurrency_guard.2 _ _ _ _ _ rfl⟩

/-- Counterexample for C8: at a mid-scan state with five exclusions, the
source's `complete` differs from the claimed emit-then-reset order — the
source resets first, so the `"complete"` listener observes the already
reset instance (exclusion counter 0), not the pre-reset one. -/
theorem complete_order_counterexample :
    completeFn c8State ≠ completeClaim c8State := by decide

/-- Processing one link through `maybeEnqueueLink` never emits a
`"complete"` notification. -/
theorem maybeEnqueueLink_no_complete (env : CheckerEnv) (opts : Options)
    (robots : Robots) (enq : EnqueueFn) (auth : Option String) (c : Nat)
    (link : LinkRec) :
    countComplete (maybeEnqueueLink env opts robots enq auth c link).events = 0 := by
  rcases h : maybeExcludeLink env opts robots link with _ | r
  · simp only [maybeEnqueueLink, h]
    split <;> simp [countComplete, Event.isComplete]
  · simp [maybeEnqueueLink, h, countComplete, Event.isComplete]

/-- The filter-and-enqueue pass never emits a `"complete"` notification. -/
theorem processLinks_no_complete (env : CheckerEnv) (opts : Options)
    (robots : Robots) (enq : EnqueueFn) (auth : Option String) :
    ∀ (links : List LinkRec) (c : Nat),
      countComplete (processLinks env opts robots enq auth c links).events = 0
  | [], c => rfl
  | link :: rest, c => by
    have h1 := maybeEnqueueLink_no_complete env opts robots enq auth c link
    have h2 := processLinks_no_complete env opts robots enq auth rest
      (maybeEnqueueLink env opts robots enq auth c link).counter
    simp only [processLinks, countComplete, List.countP_append] at *
    omega

/-- Any number of queue-drain notifications received while the parsed
flag is down leave the state unchanged and emit nothing. -/
theorem run_queueEnds_idle (env : OrchEnv) :
    ∀ (n : Nat) (s : HtmlCheckerState), s.parsed = false →
      run env s (List.replicate n .queueEnd) = (s, []) := by
  intro n
  induction n with
  | zero => intro s h; rfl
  | succ n ih =>
    intro s h
    simp [List.replicate, run, stepFn, h, ih s h]

/-- Resetting any state yields the idle state (the source's `reset`
assigns every field a constant). -/
theorem resetFn_eq (s : HtmlCheckerState) : resetFn s = initialState := rfl

/-- Once the parsed flag is up, the first queue-drain notification
completes the scan (one `"complete"`, already-reset state) and any
further drains are ignored. -/
theorem run_queueEnds_parsed (env : OrchEnv) (s : HtmlCheckerState)
    (h : s.parsed = true) (m : Nat) :
    run env s (List.replicate (m + 1) .queueEnd) =
      (initialState, [Event.complete initialState]) := by
  have h1 : stepFn env s .queueEnd = (initialState, [Event.complete initialState]) := by
    simp [stepFn, h, completeFn, resetFn_eq]
  rw [List.replicate_succ]
  simp only [run, h1]
  rw [run_queueEnds_idle env m initialState rfl]
  rfl

/-- Counting `"complete"` events distributes over append. -/
theorem countComplete_append (a b : List Event) :
    countComplete (a ++ b) = countComplete a + countComplete b := by
  simp [countComplete, List.countP_append]

/-- An `"html"` notification contributes no `"complete"` count. -/
theorem countComplete_cons_html (l : List Event) :
    countComplete (Event.html :: l) = countComplete l := by
  simp [countComplete, List.countP_cons, Event.isComplete]

/-- A single `"complete"` notification counts once. -/
theorem countComplete_complete_singleton (s : HtmlCheckerState) :
    countComplete [Event.complete s] = 1 := rfl

/-- Constructor form of the queue-drain handler on a state whose parsed
flag is up: reset to idle, then emit `"complete"`. -/
theorem step_queueEnd_parsed_mk (env : OrchEnv) (act : Bool)
    (au bu : Option String) (ex : Nat) (le : Option Unit) (ro : Option Robots) :
    stepFn env ⟨act, au, bu, ex, le, true, ro⟩ .queueEnd =
      (initialState, [Event.complete initialState]) := by
  simp [stepFn, completeFn, resetFn_eq]

/-- Shape of the parse continuation when the check queue is observed
empty: process all links, then complete at once (reset to idle, then
emit `"complete"` after the `"html"` and per-link notifications). -/
theorem step_parseDone_drained (env : OrchEnv) (s : HtmlCheckerState)
    (links : List LinkRec) :
    stepFn env s (.parseDone links true) =
      (initialState, Event.html ::
        (processLinks env.cenv env.opts (s.robots.getD Robots.fresh) env.enq
          s.auth s.excludedLinks links).events ++
        [Event.complete initialState]) := by
  simp [stepFn, completeFn, resetFn_eq]

/-- Shape of the parse continuation when the check queue still has work:
process all links and raise the parsed flag. -/
theorem step_parseDone_pending (env : OrchEnv) (s : HtmlCheckerState)
    (links : List LinkRec) :
    stepFn env s (.parseDone links false) =
      ({ s with
         excludedLinks := (processLinks env.cenv env.opts
           (s.robots.getD Robots.fresh) env.enq s.auth s.excludedLinks
           links).counter
         parsed := true },
       Event.html :: (processLinks env.cenv env.opts (s.robots.getD Robots.fresh)
         env.enq s.auth s.excludedLinks links).events) := by
  simp [stepFn]

/-- C10: the `"complete"` notification can never precede the end of the
scrape-and-filter pass.  First conjunct: the orchestrator ignores the
check queue's `"end"` notification whenever the parsed flag is down (no
state change, no notification).  Second conjunct: in a run consisting of
the `scan()` call followed by any number of queue drains arriving before
the parse continuation (`parseDone`) has run — e.g. drains caused by
other items of a shared queue — no `"complete"` notification is emitted.
(The parsed flag itself is set by the parse continuation only after
`maybeEnqueueLink` has processed every scraped link, as `stepFn`'s
`parseDone` case transcribes from `scan`.) -/
theorem no_early_complete :
    (∀ (env : OrchEnv) (s : HtmlCheckerState), s.parsed = false →
      stepFn env s .queueEnd = (s, [])) ∧
    (∀ (env : OrchEnv) (u : String) (r : Option Robots) (a : Option String)
      (m : Nat),
      countComplete (run env initialState
        (.scanCall u r a :: List.replicate m .queueEnd)).2 = 0) := by
  constructor
  · intro env s h
    simp [stepFn, h]
  · intro env u r a m
    have hscan : stepFn env initialState (.scanCall u r a) =
        ({ active := true, auth := (env.ta u a).2, baseUrl := some (env.ta u a).1,
           excludedLinks := 0, linkEnqueued := none, parsed := false,
           robots := some (match r with | some rr => rr | none => Robots.fresh) },
         []) := by
      simp [stepFn, scanSync, initialState]
    simp only [run, hscan]
    rw [run_queueEnds_idle env m _ rfl]
    simp [countComplete]

/-- Witness for C10's first conjunct at a concrete input: a queue drain
in the idle state is ignored. -/
theorem no_early_complete_witness :
    stepFn orchEnv0 initialState .queueEnd = (initialState, []) :=
  no_early_complete.1 orchEnv0 initialState rfl

/-- C8 (amended): when a scan completes, the orchestrator first resets
every per-scan field (auth, base URL, robots, exclusion counter, parsed
flag) — returning to the idle state — and then emits the `"complete"`
notification, whose listener therefore observes the already-reset
instance; and `"complete"` is emitted exactly once per finished scan
(a scan run whose queue is drained at parse time or that receives at
least one queue-drain notification afterwards). -/
theorem complete_resets_then_emits :
    (∀ s : HtmlCheckerState,
      completeFn s = (initialState, [Event.complete initialState]) ∧
      initialState.active = false ∧ initialState.auth = none ∧
      initialState.baseUrl = none ∧ initialState.excludedLinks = 0 ∧
      initialState.parsed = false ∧ initialState.robots = none) ∧
    (∀ (env : OrchEnv) (u : String) (r : Option Robots) (a : Option String)
      (links : List LinkRec) (qe : Bool) (n : Nat), qe = true ∨ 0 < n →
      countComplete (run env initialState
        (.scanCall u r a :: .parseDone links qe ::
          List.replicate n .queueEnd)).2 = 1) := by
  constructor
  · intro s
    exact ⟨rfl, rfl, rfl, rfl, rfl, rfl, rfl⟩
  · intro env u r a links qe n hfin
    have hscan : stepFn env initialState (.scanCall u r a) =
        ({ active := true, auth := (env.ta u a).2, baseUrl := some (env.ta u a).1,
           excludedLinks := 0, linkEnqueued := none, parsed := false,
           robots := some (match r with | some rr => rr | none => Robots.fresh) },
         []) := by
      simp [stepFn, scanSync, initialState]
    cases qe with
    | true =>
      simp only [run, hscan, step_parseDone_drained]
      rw [run_queueEnds_idle env n initialState rfl]
      dsimp only
      simp only [List.nil_append, List.append_nil, countComplete_cons_html,
        countComplete_append, countComplete_complete_singleton]
      rw [processLinks_no_complete]
    | false =>
      rcases hfin with hfin | hfin
      · exact absurd hfin (by simp)
      · obtain ⟨m, rfl⟩ : ∃ m, n = m + 1 :=
          ⟨n - 1, (Nat.succ_pred_eq_of_pos hfin).symm⟩
        simp only [run, hscan, step_parseDone_pending, step_queueEnd_parsed_mk]
        rw [run_queueEnds_idle env m initialState rfl]
        simp only [List.nil_append, List.append_nil, countComplete_cons_html,
          countComplete_append, countComplete_complete_singleton]
        rw [processLinks_no_complete]

/-- Witness for C8's amended theorem at concrete inputs: a scan of an
empty link list whose queue is already drained at parse time emits
exactly one `"complete"`. -/
theorem complete_resets_then_emits_witness :
    countComplete (run orchEnv0 initialState
      [.scanCall "http://page/" none none, .parseDone [] true]).2 = 1 :=
  complete_resets_then_emits.2 orchEnv0 "http://page/" none none [] true 0
    (Or.inl rfl)

/-- C6: a non-excluded link whose enqueue is rejected (the queue returns
`undefined`) is immediately reported through a `"link"` notification
marked `broken = true` with reason `BLC_INVALID` (the source constant for
the spec's reason code `invalid`); the link contributes nothing to the
queue submissions, the exclusion counter is unchanged, and processing
continues with the remaining links (the embedding is a total function, so
no exception can reach the caller). -/
theorem invalid_enqueue_reported (env : CheckerEnv) (opts : Options)
    (robots : Robots) (enq : EnqueueFn) (auth : Option String) (c : Nat)
    (link : LinkRec) (rest : List LinkRec)
    (hexcl : maybeExcludeLink env opts robots link = none)
    (henq : enq auth { link with
      offsetIndex := some ((link.index : Int) - (c : Int))
      excluded := some false } = none) :
    processLinks env opts robots enq auth c (link :: rest) =
      { counter := (processLinks env opts robots enq auth c rest).counter
        links := { link with
                   offsetIndex := some ((link.index : Int) - (c : Int))
                   excluded := some false
                   broken := some true
                   brokenReason := some "BLC_INVALID" } ::
                 (processLinks env opts robots enq auth c rest).links
        events := Event.link { link with
                   offsetIndex := some ((link.index : Int) - (c : Int))
                   excluded := some false
                   broken := some true
                   brokenReason := some "BLC_INVALID" } ::
                 (processLinks env opts robots enq auth c rest).events
        queued := (processLinks env opts robots enq auth c rest).queued } := by
  simp [processLinks, maybeEnqueueLink, hexcl, henq]

/-- Witness for C6 at concrete inputs: an includable link facing a queue
that rejects everything is reported broken-invalid and never queued,
while the scan continues (here, to the end of the list). -/
theorem invalid_enqueue_reported_witness :
    maybeExcludeLink cenv0 optsPermissive Robots.fresh linkExternal = none ∧
    processLinks cenv0 optsPermissive Robots.fresh (fun _ _ => none) none 0
        [linkExternal] =
      { counter := (processLinks cenv0 optsPermissive Robots.fresh
          (fun _ _ => none) none 0 []).counter
        links := { linkExternal with
                   offsetIndex := some ((linkExternal.index : Int) - ((0 : Nat) : Int))
                   excluded := some false
                   broken := some true
                   brokenReason := some "BLC_INVALID" } ::
                 (processLinks cenv0 optsPermissive Robots.fresh
                   (fun _ _ => none) none 0 []).links
        events := Event.link { linkExternal with
                   offsetIndex := some ((linkExternal.index : Int) - ((0 : Nat) : Int))
                   excluded := some false
                   broken := some true
                   brokenReason := some "BLC_INVALID" } ::
                 (processLinks cenv0 optsPermissive Robots.fresh
                   (fun _ _ => none) none 0 []).events
        queued := (processLinks cenv0 optsPermissive Robots.fresh
          (fun _ _ => none) none 0 []).queued } :=
  ⟨by decide,
   invalid_enqueue_reported cenv0 optsPermissive Robots.fresh (fun _ _ => none)
     none 0 linkExternal [] (by decide) rfl⟩

/-- Closed form of `offsetSeq`: the length-`k` sequence starting at
`base` is `base, base+1, ...` — i.e. `base` plus the range `0..k-1`. -/
theorem offsetSeq_eq_range : ∀ (k : Nat) (base : Int),
    offsetSeq base k = (List.range k).map (fun (j : Nat) => some (base + (j : Int)))
  | 0, base => rfl
  | k + 1, base => by
    rw [offsetSeq, offsetSeq_eq_range k (base + 1), List.range_succ_eq_map]
    simp only [List.map_cons, List.map_map, Nat.cast_zero, add_zero]
    refine congrArg₂ List.cons rfl ?_
    apply List.map_congr_left
    intro j hj
    simp only [Function.comp]
    push_cast
    ring_nf



/-- Cons step of the offset-map invariant when the head link is
included: its offset is the sequence base, the tail continues one
higher. -/
theorem filter_map_cons_inc (head : LinkRec) (tl : List LinkRec) (b : Int)
    (hinc : isIncludedLink head = true) (hoff : head.offsetIndex = some b)
    (ih : (tl.filter (fun l => isIncludedLink l)).map (fun l => l.offsetIndex) =
      offsetSeq (b + 1) (tl.countP (fun l => isIncludedLink l))) :
    ((head :: tl).filter (fun l => isIncludedLink l)).map (fun l => l.offsetIndex) =
      offsetSeq b ((head :: tl).countP (fun l => isIncludedLink l)) := by
  rw [List.filter_cons_of_pos hinc, List.countP_cons_of_pos _ _ hinc,
    List.map_cons, hoff, offsetSeq, ih]


/-- Cons step of the offset-map invariant when the head link is
excluded: the filtered sequence is untouched. -/
theorem filter_map_cons_exc (head : LinkRec) (tl : List LinkRec) (b : Int)
    (hexc : isIncludedLink head = false)
    (ih : (tl.filter (fun l => isIncludedLink l)).map (fun l => l.offsetIndex) =
      offsetSeq b (tl.countP (fun l => isIncludedLink l))) :
    ((head :: tl).filter (fun l => isIncludedLink l)).map (fun l => l.offsetIndex) =
      offsetSeq b ((head :: tl).countP (fun l => isIncludedLink l)) := by
  rw [List.filter_cons_of_neg, List.countP_cons_of_neg, ih] <;> simp [hexc]


/-- Cons step of the excluded-offset invariant when the head link is not
excluded: later exclusion counts are unchanged. -/
theorem excl_count_cons_skip (head : LinkRec) (tl : List LinkRec) (e0 : Nat)
    (hhead : isExcludedLink head = false)
    (ih : ∀ (i : Nat) (l : LinkRec), tl[i]? = some l → isExcludedLink l = true →
      l.offsetIndex = some ((e0 : Int) +
        (((tl.take i).countP (fun l => isExcludedLink l) : Nat) : Int))) :
    ∀ (i : Nat) (l : LinkRec), (head :: tl)[i]? = some l →
      isExcludedLink l = true →
      l.offsetIndex = some ((e0 : Int) +
        ((((head :: tl).take i).countP (fun l => isExcludedLink l) : Nat) : Int)) := by
  intro i l hl hexl
  cases i with
  | zero =>
    simp at hl
    subst hl
    rw [hhead] at hexl
    cases hexl
  | succ i =>
    simp only [List.getElem?_cons_succ] at hl
    rw [List.take_succ_cons, List.countP_cons, hhead]
    simpa using ih i l hl hexl


/-- Cons step of the excluded-offset invariant when the head link is
excluded with the current counter: later links see the counter one
higher. -/
theorem excl_count_cons_hit (head : LinkRec) (tl : List LinkRec) (e0 : Nat)
    (hhead : isExcludedLink head = true)
    (hoff : head.offsetIndex = some (e0 : Int))
    (ih : ∀ (i : Nat) (l : LinkRec), tl[i]? = some l → isExcludedLink l = true →
      l.offsetIndex = some (((e0 + 1 : Nat) : Int) +
        (((tl.take i).countP (fun l => isExcludedLink l) : Nat) : Int))) :
    ∀ (i : Nat) (l : LinkRec), (head :: tl)[i]? = some l →
      isExcludedLink l = true →
      l.offsetIndex = some ((e0 : Int) +
        ((((head :: tl).take i).countP (fun l => isExcludedLink l) : Nat) : Int)) := by
  intro i l hl hexl
  cases i with
  | zero =>
    simp at hl
    subst hl
    rw [hoff]
    simp
  | succ i =>
    simp only [List.getElem?_cons_succ] at hl
    rw [List.take_succ_cons, List.countP_cons, hhead]
    rw [ih i l hl hexl]
    simp
    omega


/-- Offset-index bookkeeping of the filter-and-enqueue pass, generalised
over the starting document index `n0` and exclusion counter `e0`: if the
incoming links carry dense indices `n0, n0+1, ...`, the non-excluded
outputs carry offset indices `n0-e0, n0-e0+1, ...` in document order,
and every excluded output carries the exclusion count accumulated at the
moment it was excluded (`e0` plus the number of excluded outputs
preceding it). -/
theorem processLinks_stamps (env : CheckerEnv) (opts : Options)
    (robots : Robots) (enq : EnqueueFn) (auth : Option String) :
    ∀ (links : List LinkRec) (n0 e0 : Nat),
      (∀ (i : Nat) (l : LinkRec), links[i]? = some l → l.index = n0 + i) →
      (((processLinks env opts robots enq auth e0 links).links.filter
          (fun l => isIncludedLink l)).map (fun l => l.offsetIndex) =
        offsetSeq ((n0 : Int) - (e0 : Int))
          ((processLinks env opts robots enq auth e0 links).links.countP
            (fun l => isIncludedLink l))) ∧
      (∀ (i : Nat) (l : LinkRec),
        (processLinks env opts robots enq auth e0 links).links[i]? = some l →
        isExcludedLink l = true →
        l.offsetIndex = some ((e0 : Int) +
          ((((processLinks env opts robots enq auth e0 links).links.take i).countP
            (fun l => isExcludedLink l) : Nat) : Int)))
  | [], n0, e0, hdense => by
    constructor
    · simp [processLinks, offsetSeq]
    · intro i l hl
      simp [processLinks] at hl
  | link :: rest, n0, e0, hdense => by
    have hd0 : link.index = n0 := by
      have := hdense 0 link (by simp)
      omega
    have hdrest : ∀ (i : Nat) (l : LinkRec), rest[i]? = some l →
        l.index = (n0 + 1) + i := by
      intro i l hl
      have := hdense (i + 1) l (by simpa using hl)
      omega
    have hbase : ((n0 + 1 : Nat) : Int) - (e0 : Int) = ((n0 : Int) - (e0 : Int)) + 1 := by
      push_cast
      ring
    rcases hex : maybeExcludeLink env opts robots link with _ | reason
    · obtain ⟨ih1, ih2⟩ := processLinks_stamps env opts robots enq auth rest
        (n0 + 1) e0 hdrest
      rw [hbase] at ih1
      rcases henq : enq auth { link with
          offsetIndex := some ((link.index : Int) - (e0 : Int))
          excluded := some false } with _ | id
      · simp only [processLinks, maybeEnqueueLink, hex, henq, List.singleton_append]
        exact ⟨filter_map_cons_inc _ _ _ rfl (by simp [hd0]) ih1,
          excl_count_cons_skip _ _ _ rfl ih2⟩
      · simp only [processLinks, maybeEnqueueLink, hex, henq, List.singleton_append]
        exact ⟨filter_map_cons_inc _ _ _ rfl (by simp [hd0]) ih1,
          excl_count_cons_skip _ _ _ rfl ih2⟩
    · obtain ⟨ih1, ih2⟩ := processLinks_stamps env opts robots enq auth rest
        (n0 + 1) (e0 + 1) hdrest
      have hbase2 : ((n0 + 1 : Nat) : Int) - ((e0 + 1 : Nat) : Int) =
          (n0 : Int) - (e0 : Int) := by
        push_cast
        ring
      rw [hbase2] at ih1
      simp only [processLinks, maybeEnqueueLink, hex, List.singleton_append]
      exact ⟨filter_map_cons_exc _ _ _ rfl ih1,
        excl_count_cons_hit _ _ _ rfl rfl ih2⟩

/-- C3: in a scan (exclusion counter starting at 0), assuming the
scraper assigned dense source indices `0..N-1` in document order, the
`offsetIndex` values of the non-excluded links are exactly `0..K-1` in
document order (`K` being the number of non-excluded links), and each
excluded link's `offsetIndex` equals the running count of exclusions at
the moment it was excluded. -/
theorem offset_index_dense (env : CheckerEnv) (opts : Options)
    (robots : Robots) (enq : EnqueueFn) (auth : Option String)
    (links : List LinkRec)
    (hdense : ∀ (i : Nat) (l : LinkRec), links[i]? = some l → l.index = i) :
    (((processLinks env opts robots enq auth 0 links).links.filter
        (fun l => isIncludedLink l)).map (fun l => l.offsetIndex) =
      (List.range ((processLinks env opts robots enq auth 0 links).links.countP
          (fun l => isIncludedLink l))).map (fun (k : Nat) => some ((k : Int)))) ∧
    (∀ (i : Nat) (l : LinkRec),
      (processLinks env opts robots enq auth 0 links).links[i]? = some l →
      isExcludedLink l = true →
      l.offsetIndex =
        some ((((processLinks env opts robots enq auth 0 links).links.take i).countP
          (fun l => isExcludedLink l) : Nat) : Int)) := by
  obtain ⟨h1, h2⟩ := processLinks_stamps env opts robots enq auth links 0 0
    (by intro i l hl; simpa using hdense i l hl)
  constructor
  · rw [h1, offsetSeq_eq_range]
    simp
  · intro i l hl hexl
    simpa using h2 i l hl hexl

/-- Witness for C3 at a concrete input: scanning three dense-indexed
links of which the middle one is excluded yields included offsets
`[0, 1]` and stamps the excluded link with running count 0. -/
theorem offset_index_dense_witness :
    (((processLinks cenv0 optsPermissive Robots.fresh (fun _ _ => some 5) none 0
        [linkA0, linkDiv1, linkA2]).links.filter
        (fun l => isIncludedLink l)).map (fun l => l.offsetIndex) =
      (List.range ((processLinks cenv0 optsPermissive Robots.fresh
          (fun _ _ => some 5) none 0
          [linkA0, linkDiv1, linkA2]).links.countP
          (fun l => isIncludedLink l))).map (fun (k : Nat) => some ((k : Int)))) ∧
    linkDiv1Junk.offsetIndex =
      some ((((processLinks cenv0 optsPermissive Robots.fresh
          (fun _ _ => some 5) none 0
          [linkA0, linkDiv1, linkA2]).links.take 1).countP
        (fun l => isExcludedLink l) : Nat) : Int) :=
  ⟨(offset_index_dense cenv0 optsPermissive Robots.fresh (fun _ _ => some 5)
      none [linkA0, linkDiv1, linkA2]
      (by
        intro i l hl
        rcases i with _ | _ | _ | i <;>
          simp_all [linkA0, linkDiv1, linkA2, blankLink] <;>
          subst hl <;> rfl)).1,
   (offset_index_dense cenv0 optsPermissive Robots.fresh (fun _ _ => some 5)
      none [linkA0, linkDiv1, linkA2]
      (by
        intro i l hl
        rcases i with _ | _ | _ | i <;>
          simp_all [linkA0, linkDiv1, linkA2, blankLink] <;>
          subst hl <;> rfl)).2 1 linkDiv1Junk
      (by decide) (by decide)⟩

/-- Counterexample for C4: an `href` of three spaces is empty after
trimming, yet the scraper still invokes the callback — one candidate
Link with URL `""` is emitted, where the claim says none should be. -/
theorem trim_empty_counterexample :
    trimStr "   " = "" ∧
    (findLinks scraperEnv0 [] docTrim).map (fun c => (c.tagName, c.attrName, c.url)) =
      [("a", "href", "")] := by
  constructor
  · rfl
  · rfl

/-- C4 (amended): for every recognized attribute other than
`content`/`ping`/`srcset`, the scraper trims surrounding whitespace from
the attribute value and the trimmed value — even when empty — yields
exactly one candidate Link (only the special attributes can extract to
nothing).  Second conjunct: the per-element visit on such an attribute
emits exactly that candidate. -/
theorem attr_trim_candidate :
    (∀ (env : ScraperEnv) (attrs : List (String × String)) (attrName v : String),
      attrName ≠ "content" → attrName ≠ "ping" → attrName ≠ "srcset" →
      attrGet attrs attrName = some v →
      extractUrls env attrs attrName = [trimStr v]) ∧
    (∀ (env : ScraperEnv) (path : List Nat) (tag attrName v : String)
      (cs : NodeList) (linkAttrs : List String),
      lookupTag maxFilterLevel tag = some linkAttrs →
      linkAttrs.contains attrName = true →
      attrName ≠ "content" → attrName ≠ "ping" → attrName ≠ "srcset" →
      visitNodeT maxFilterLevel env path (.element tag [(attrName, v)] cs) =
        [⟨path, tag, [(attrName, v)], attrName, trimStr v⟩]) := by
  have hx : ∀ (env : ScraperEnv) (attrs : List (String × String)) (attrName v : String),
      attrName ≠ "content" → attrName ≠ "ping" → attrName ≠ "srcset" →
      attrGet attrs attrName = some v →
      extractUrls env attrs attrName = [trimStr v] := by
    intro env attrs attrName v h1 h2 h3 hv
    simp [extractUrls, hv, h1, h2, h3]
  refine ⟨hx, ?_⟩
  intro env path tag attrName v cs linkAttrs hlook hmem h1 h2 h3
  have hv : attrGet [(attrName, v)] attrName = some v := by
    simp [attrGet]
  have hmem2 : attrName ∈ linkAttrs := by simpa using hmem
  simp [visitNodeT, hlook, hmem, hmem2,
    hx env [(attrName, v)] attrName v h1 h2 h3 hv]

/-- Witness for C4's amended theorem at a concrete input: a `title`
attribute value of spaces is trimmed to the empty string and still
extracted; a visit of `<a href="   ">` emits exactly one candidate with
URL `""`. -/
theorem attr_trim_candidate_witness :
    extractUrls scraperEnv0 [("href", "   ")] "href" = [""] ∧
    visitNodeT maxFilterLevel scraperEnv0 [] (.element "a" [("href", "   ")] .nil) =
      [⟨[], "a", [("href", "   ")], "href", ""⟩] := by
  constructor
  · exact attr_trim_candidate.1 scraperEnv0 [("href", "   ")] "href" "   "
      (by decide) (by decide) (by decide) (by decide)
  · exact attr_trim_candidate.2 scraperEnv0 [] "a" "href" "   " .nil
      ["href", "ping"] (by decide) (by decide) (by decide) (by decide) (by decide)

/-- Counterexample for C2: the scraper emits a Link for `<img src>` even
though the configured level-0 table has no `img` entry — the scraper
does not consult the configured filter-level table (a traversal driven
by that table, as the claim describes, would emit nothing at level 0). -/
theorem scraper_level_counterexample :
    lookupTag (tags.getD 0 []) "img" = none ∧
    (findLinks scraperEnv0 [] docImg).map (fun c => (c.tagName, c.attrName, c.url)) =
      [("img", "src", "x.png")] ∧
    findLinksClaim 0 scraperEnv0 [] docImg = [] := by
  refine ⟨rfl, rfl, rfl⟩

/-- C2 (amended): the scraper looks every visited element up in the
maximal filter-level table (the last entry of `tags`), independent of
the configured filter level, and skips elements absent from that
maximal table; each emitted candidate's tag/attribute pair is in the
maximal table; the caller-configured filter level is enforced later, by
the orchestrator's first filter rule, which excludes links whose
tag/attribute pair is not in the configured level's table with reason
`BLC_HTML` (the spec's `unsupported-html-location`). -/
theorem scraper_uses_max_table :
    (∀ (env : ScraperEnv) (path : List Nat) (name : String)
      (attrs : List (String × String)) (cs : NodeList),
      lookupTag maxFilterLevel name = none →
      visitNodeT maxFilterLevel env path (.element name attrs cs) = []) ∧
    (∀ (env : ScraperEnv) (path : List Nat) (n : Node) (c : Candidate),
      c ∈ visitNodeT maxFilterLevel env path n →
      ∃ linkAttrs, lookupTag maxFilterLevel c.tagName = some linkAttrs ∧
        c.attrName ∈ linkAttrs) ∧
    (∀ (env : CheckerEnv) (opts : Options) (robots : Robots) (link : LinkRec),
      tagRecognized opts link.tagName link.attrName = false →
      maybeExcludeLink env opts robots link = some "BLC_HTML") := by
  refine ⟨?_, ?_, ?_⟩
  · intro env path name attrs cs hnone
    simp [visitNodeT, hnone]
  · intro env path n c hc
    cases n with
    | element name attrs cs =>
      simp only [visitNodeT] at hc
      rcases hlook : lookupTag maxFilterLevel name with _ | linkAttrs
      · rw [hlook] at hc
        simp at hc
      · rw [hlook] at hc
        simp only [List.mem_flatMap] at hc
        obtain ⟨attrName, _, hin⟩ := hc
        by_cases hmem : linkAttrs.contains attrName = true
        · rw [if_pos hmem] at hin
          simp only [List.mem_map] at hin
          obtain ⟨u, _, rfl⟩ := hin
          exact ⟨linkAttrs, hlook, by simpa using hmem⟩
        · rw [if_neg hmem] at hin
          simp at hin
    | text v => simp [visitNodeT] at hc
    | comment v => simp [visitNodeT] at hc
    | doctype => simp [visitNodeT] at hc
  · intro env opts robots link h
    simp [maybeExcludeLink, h]

/-- Witness for C2's amended theorem at concrete inputs: a `div` is
skipped by the scraper's (maximal) table; the emitted `img`/`src`
candidate of the example document is covered by the maximal table; a
`div`/`x` link is excluded as `BLC_HTML` by the orchestrator at level 0. -/
theorem scraper_uses_max_table_witness :
    visitNodeT maxFilterLevel scraperEnv0 [] (.element "div" [("x", "y")] .nil) = [] ∧
    (∃ linkAttrs, lookupTag maxFilterLevel (⟨[0, 0], "img", [("src", "x.png")], "src", "x.png"⟩ : Candidate).tagName = some linkAttrs ∧
      (⟨[0, 0], "img", [("src", "x.png")], "src", "x.png"⟩ : Candidate).attrName ∈ linkAttrs) ∧
    maybeExcludeLink cenv0 { optsPermissive with filterLevel := 0 } Robots.fresh
      linkDiv1 = some "BLC_HTML" :=
  ⟨scraper_uses_max_table.1 scraperEnv0 [] "div" [("x", "y")] .nil rfl,
   scraper_uses_max_table.2.1 scraperEnv0 [0, 0]
     (.element "img" [("src", "x.png")] .nil)
     ⟨[0, 0], "img", [("src", "x.png")], "src", "x.png"⟩ (by decide),
   scraper_uses_max_table.2.2 cenv0 { optsPermissive with filterLevel := 0 }
     Robots.fresh linkDiv1 (by decide)⟩

/-- Base effect of one `findPreliminaries` visit: the base field keeps
its value once set, and is otherwise filled from the node exactly when
the node is a `<base>` element with an `href` attribute. -/
theorem prelimVisit_base (env : ScraperEnv) (req : Bool) (st : Prelim)
    (n : Node) :
    (prelimVisit env req st n).1.base =
      (match st.base with
       | some b => some b
       | none =>
         if n.nodeName == "base" && (attrGet n.attrsOf "href").isSome then
           (attrGet n.attrsOf "href").map (fun v => trimStr v)
         else none) := by
  cases n with
  | element name attrs cs =>
    by_cases hn : name = "base"
    · cases hb : st.base with
      | some b => simp [prelimVisit, Node.nodeName, Node.attrsOf, hn, hb]
      | none =>
        cases hh : attrGet attrs "href" with
        | some v => simp [prelimVisit, Node.nodeName, Node.attrsOf, hn, hb, hh]
        | none => simp [prelimVisit, Node.nodeName, Node.attrsOf, hn, hb, hh]
    · by_cases hm : name = "meta"
      · cases hb : st.base <;>
          simp [prelimVisit, Node.nodeName, Node.attrsOf, hn, hm, hb] <;>
          split_ifs <;> simp [hb]
      · cases hb : st.base <;>
          simp [prelimVisit, Node.nodeName, Node.attrsOf, hn, hm, hb]
  | text v => cases hb : st.base <;> simp [prelimVisit, Node.nodeName, hb]
  | comment v => cases hb : st.base <;> simp [prelimVisit, Node.nodeName, hb]
  | doctype => cases hb : st.base <;> simp [prelimVisit, Node.nodeName, hb]


/-- The visit's continue flag: the walk is killed exactly when a base
has been found and no robots collector was requested. -/
theorem prelimVisit_cont (env : ScraperEnv) (req : Bool) (st : Prelim)
    (n : Node) :
    (prelimVisit env req st n).2 =
      !((prelimVisit env req st n).1.base.isSome && !req) := by
  cases n <;> rfl


mutual

/-- Base value computed by the early-abort walk from a node: the
incoming base if already set, else the subtree's first base href; and
whenever the walk aborts, a base has been found. -/
theorem prelimWalk_base (env : ScraperEnv) (req : Bool) :
    ∀ (n : Node) (st : Prelim),
      ((prelimWalk env req st n).1.base =
        match st.base with
        | some b => some b
        | none => firstBaseOf n) ∧
      ((prelimWalk env req st n).2 = false →
        (prelimWalk env req st n).1.base.isSome = true)
  | .element name attrs cs, st => by
    have hvb := prelimVisit_base env req st (.element name attrs cs)
    have hvc := prelimVisit_cont env req st (.element name attrs cs)
    rcases hpv : prelimVisit env req st (.element name attrs cs) with ⟨st2, cont⟩
    rw [hpv] at hvb hvc
    simp only at hvb hvc
    have hlist := prelimWalkList_base env req cs st2
    cases cont with
    | false =>
      simp only [prelimWalk, hpv]
      have hsome : st2.base.isSome = true := by
        cases hsb : st2.base with
        | none => rw [hsb] at hvc; simp at hvc
        | some b => rfl
      constructor
      · cases hb : st.base with
        | some b => rw [hb] at hvb; simpa using hvb
        | none =>
          rw [hb] at hvb
          simp only at hvb
          rcases hif : (name == "base" && (attrGet attrs "href").isSome) with _ | _
          · rw [Node.nodeName, Node.attrsOf] at hvb
            rw [hif] at hvb
            simp at hvb
            rw [hvb] at hsome
            simp at hsome
          · rw [Node.nodeName, Node.attrsOf] at hvb
            rw [hif] at hvb
            simp only [if_true] at hvb
            simp only [firstBaseOf, hif, if_pos]
            simpa using hvb
      · intro _
        exact hsome
    | true =>
      simp only [prelimWalk, hpv]
      constructor
      · rw [(hlist).1]
        cases hb : st.base with
        | some b =>
          rw [hb] at hvb
          simp only at hvb
          rw [hvb]
        | none =>
          rw [hb] at hvb
          rw [Node.nodeName, Node.attrsOf] at hvb
          simp only at hvb
          rcases hif : (name == "base" && (attrGet attrs "href").isSome) with _ | _
          · rw [hif] at hvb
            simp at hvb
            rw [hvb]
            simp only [firstBaseOf, hif]
            simp
          · rw [hif] at hvb
            simp only [if_true] at hvb
            rw [hvb]
            simp only [firstBaseOf, hif, if_true]
            cases hh : attrGet attrs "href" with
            | none => rw [hh] at hif; simp at hif
            | some v => simp [hh]
      · exact (hlist).2
  | .text v, st => by
    have hvb := prelimVisit_base env req st (.text v)
    have hvc := prelimVisit_cont env req st (.text v)
    constructor
    · simpa [prelimWalk, prelimVisit, firstBaseOf] using hvb
    · intro hc
      simp only [prelimWalk] at hc
      rcases hpv : prelimVisit env req st (.text v) with ⟨st2, cont⟩
      rw [hpv] at hvc hc
      simp only at hvc hc
      simp only [prelimWalk, hpv]
      cases hsb : st2.base with
      | none => rw [hc, hsb] at hvc; simp at hvc
      | some b => rfl
  | .comment v, st => by
    have hvb := prelimVisit_base env req st (.comment v)
    have hvc := prelimVisit_cont env req st (.comment v)
    constructor
    · simpa [prelimWalk, prelimVisit, firstBaseOf] using hvb
    · intro hc
      simp only [prelimWalk] at hc
      rcases hpv : prelimVisit env req st (.comment v) with ⟨st2, cont⟩
      rw [hpv] at hvc hc
      simp only at hvc hc
      simp only [prelimWalk, hpv]
      cases hsb : st2.base with
      | none => rw [hc, hsb] at hvc; simp at hvc
      | some b => rfl
  | .doctype, st => by
    have hvb := prelimVisit_base env req st .doctype
    have hvc := prelimVisit_cont env req st .doctype
    constructor
    · simpa [prelimWalk, prelimVisit, firstBaseOf] using hvb
    · intro hc
      simp only [prelimWalk] at hc
      rcases hpv : prelimVisit env req st .doctype with ⟨st2, cont⟩
      rw [hpv] at hvc hc
      simp only at hvc hc
      simp only [prelimWalk, hpv]
      cases hsb : st2.base with
      | none => rw [hc, hsb] at hvc; simp at hvc
      | some b => rfl


/-- Base value computed by the early-abort walk over a child list. -/
theorem prelimWalkList_base (env : ScraperEnv) (req : Bool) :
    ∀ (cs : NodeList) (st : Prelim),
      ((prelimWalkList env req st cs).1.base =
        match st.base with
        | some b => some b
        | none => firstBaseOfList cs) ∧
      ((prelimWalkList env req st cs).2 = false →
        (prelimWalkList env req st cs).1.base.isSome = true)
  | .nil, st => by
    constructor
    · cases hb : st.base <;> simp [prelimWalkList, firstBaseOfList, hb]
    · intro hc
      simp [prelimWalkList] at hc
  | .cons c cs, st => by
    have hnode := prelimWalk_base env req c st
    rcases hpw : prelimWalk env req st c with ⟨st1, cont1⟩
    rw [hpw] at hnode
    simp only at hnode
    cases cont1 with
    | false =>
      simp only [prelimWalkList, hpw]
      have hsome : st1.base.isSome = true := hnode.2 rfl
      constructor
      · cases hb : st.base with
        | some b => rw [hb] at hnode; simpa using hnode.1
        | none =>
          rw [hb] at hnode
          have h1 := hnode.1
          simp only at h1
          rw [h1] at hsome ⊢
          simp only [firstBaseOfList]
          cases hfb : firstBaseOf c with
          | none => rw [hfb] at hsome; simp at hsome
          | some b => rfl
      · intro _
        exact hsome
    | true =>
      have hlist := prelimWalkList_base env req cs st1
      simp only [prelimWalkList, hpw]
      constructor
      · rw [hlist.1]
        cases hb : st.base with
        | some b =>
          rw [hb] at hnode
          have h1 := hnode.1
          simp only at h1
          rw [h1]
        | none =>
          rw [hb] at hnode
          have h1 := hnode.1
          simp only at h1
          rw [h1]
          simp only [firstBaseOfList]
      · exact hlist.2

end

/-- The preliminary pass's base is the recursive first-base rule,
regardless of whether a robots collector was requested. -/
theorem findPreliminaries_base (env : ScraperEnv) (req : Bool) (root : Node) :
    (findPreliminaries env req root).base = firstBaseOf root := by
  have h := (prelimWalk_base env req root { base := none, robotsMeta := [] }).1
  simpa [findPreliminaries] using h


mutual

/-- The recursive first-base rule coincides with its document-order
description: the first pre-order node that is a `<base>` element with an
`href` attribute, its href trimmed. -/
theorem firstBaseOf_eq : ∀ (n : Node),
    firstBaseOf n = ((preorder n).find? (fun nd =>
        nd.nodeName == "base" && (attrGet nd.attrsOf "href").isSome)).bind
      (fun nd => (attrGet nd.attrsOf "href").map (fun v => trimStr v))
  | .element name attrs cs => by
    simp only [preorder]
    by_cases hp : (name == "base" && (attrGet attrs "href").isSome) = true
    · rw [List.find?_cons_of_pos]
      · simp [firstBaseOf, hp, Node.attrsOf]
      · simpa [Node.nodeName, Node.attrsOf] using hp
    · rw [List.find?_cons_of_neg]
      · rw [firstBaseOf, if_neg hp]
        exact firstBaseOfList_eq cs
      · simpa [Node.nodeName, Node.attrsOf] using hp
  | .text v => rfl
  | .comment v => rfl
  | .doctype => rfl


/-- Document-order description of the first-base rule over a child
list. -/
theorem firstBaseOfList_eq : ∀ (cs : NodeList),
    firstBaseOfList cs = ((preorderList cs).find? (fun nd =>
        nd.nodeName == "base" && (attrGet nd.attrsOf "href").isSome)).bind
      (fun nd => (attrGet nd.attrsOf "href").map (fun v => trimStr v))
  | .nil => rfl
  | .cons c cs => by
    simp only [preorderList, List.find?_append]
    cases hfc : (preorder c).find? (fun nd =>
        nd.nodeName == "base" && (attrGet nd.attrsOf "href").isSome) with
    | none =>
      have hc0 : firstBaseOf c = none := by
        rw [firstBaseOf_eq c, hfc]
        rfl
      simp only [firstBaseOfList, hc0]
      rw [firstBaseOfList_eq cs]
      simp [Option.orElse]
    | some nd =>
      have hpnd := List.find?_some hfc
      cases hh : attrGet nd.attrsOf "href" with
      | none => rw [hh] at hpnd; simp at hpnd
      | some v =>
        have hc1 : firstBaseOf c = some (trimStr v) := by
          rw [firstBaseOf_eq c, hfc]
          simp [hh]
        simp only [firstBaseOfList, hc1]
        simp [Option.orElse, hh]

end

/-- Counterexample for C5: in a document whose first `<base>` has an
empty `href` and whose second has a non-empty one, the scraper's
effective base is the empty string (the first `<base>` with an `href`
attribute present wins), not the second element's href as the claim's
non-empty rule would select. -/
theorem base_empty_counterexample :
    (findPreliminaries scraperEnv0 false docBases).base = some "" ∧
    firstBaseHrefClaim docBases = some "http://x/" ∧
    (findPreliminaries scraperEnv0 false docBases).base ≠ firstBaseHrefClaim docBases :=
  ⟨rfl, rfl, by decide⟩

/-- C5 (amended): for every document, the effective base URL is the
trimmed `href` of the first `<base>` element in document order that has
an `href` attribute at all (its value may be empty); `<base>` elements
without an `href` attribute are skipped and later `<base>` elements are
still considered.  This holds whether or not a robots collector was
requested (the early walk abort does not change the base). -/
theorem base_first_href_attr (env : ScraperEnv) (req : Bool) (root : Node) :
    (findPreliminaries env req root).base = firstBaseHref root := by
  rw [findPreliminaries_base, firstBaseOf_eq]
  rfl

/-- Under well-formed parser names, the source's "name starts with `#`"
test recognises exactly the non-element nodes. -/
theorem namesOk_headIsHash (n : Node) (h : namesOk n = true) :
    headIsHash n.nodeName = !n.isElement := by
  cases n with
  | element nm attrs cs =>
    simp only [namesOk, Bool.and_eq_true] at h
    simp only [Node.nodeName, Node.isElement, Bool.not_true]
    cases hh : headIsHash nm
    · rfl
    · rw [hh] at h
      simp at h
  | text v => rfl
  | comment v => rfl
  | doctype => rfl

/-- Well-formedness of a child list gives well-formedness of each
member. -/
theorem namesOkList_mem : ∀ (cs : NodeList), namesOkList cs = true →
    ∀ n ∈ cs.toList, namesOk n = true
  | .nil, _, n, hn => by simp [NodeList.toList] at hn
  | .cons c cs, h, n, hn => by
    simp only [namesOkList, Bool.and_eq_true] at h
    simp only [NodeList.toList, List.mem_cons] at hn
    rcases hn with rfl | hn
    · exact h.1
    · exact namesOkList_mem cs h.2 n hn

/-- Well-formedness of a node gives well-formedness of its children. -/
theorem namesOk_children (n : Node) (h : namesOk n = true) :
    namesOkList n.childrenOf = true := by
  cases n with
  | element nm attrs cs =>
    simp only [namesOk, Bool.and_eq_true] at h
    exact h.2
  | text v => rfl
  | comment v => rfl
  | doctype => rfl

/-- Well-formedness propagates to the child list at any path. -/
theorem namesOkList_childrenAt (roots : NodeList)
    (hroots : namesOkList roots = true) :
    ∀ (p : List Nat), namesOkList ((childrenAt roots p).getD .nil) = true := by
  intro p
  induction p generalizing roots with
  | nil => simpa [childrenAt] using hroots
  | cons i p ih =>
    simp only [childrenAt]
    cases hg : roots.toList.get? i with
    | none => rfl
    | some n =>
      have hn : namesOk n = true :=
        namesOkList_mem roots hroots n (by
          have := List.get?_mem hg
          exact this)
      exact ih n.childrenOf (namesOk_children n hn)

/-- The `getNthIndex` counting loop counts exactly the element nodes
among the first `i` siblings, under well-formed names. -/
theorem nthLoop_eq_countP : ∀ (sib : List Node) (i : Nat),
    (∀ n ∈ sib, namesOk n = true) →
    nthLoop sib i = (sib.take i).countP (fun n => n.isElement)
  | _, 0, _ => by simp [nthLoop]
  | [], i + 1, _ => by simp [nthLoop]
  | c :: cs, i + 1, h => by
    have hc : namesOk c = true := h c (by simp)
    have hrest : ∀ n ∈ cs, namesOk n = true := fun n hn => h n (by simp [hn])
    simp only [nthLoop, List.take_succ_cons, List.countP_cons,
      nthLoop_eq_countP cs i hrest, namesOk_headIsHash c hc]
    cases he : c.isElement <;> simp [he] <;> omega


/-- One selector segment built by the `getSelector` loop equals the
claim's description of that ancestor's segment. -/
theorem codeSeg_eq_claimSeg (roots : NodeList) (hroots : namesOkList roots = true)
    (xs : List Nat) (i : Nat) :
    codeSeg ((childrenAt roots xs).getD .nil).toList i =
      claimSeg roots (xs ++ [i]) := by
  have hsib : namesOkList ((childrenAt roots xs).getD .nil) = true :=
    namesOkList_childrenAt roots hroots xs
  have hmem : ∀ n ∈ ((childrenAt roots xs).getD .nil).toList, namesOk n = true :=
    namesOkList_mem _ hsib
  have hcnt := nthLoop_eq_countP ((childrenAt roots xs).getD .nil).toList i hmem
  simp only [codeSeg, claimSeg, List.dropLast_concat, List.getLastD_concat,
    getNthIndex, hcnt]
  have hiff : ∀ (name : String),
      (name ≠ "html" ∧ (name ≠ "body" ∧ name ≠ "head")) ↔
        (name ≠ "html" ∧ name ≠ "head" ∧ name ≠ "body") := by
    intro name
    tauto
  rw [if_congr (hiff _) rfl rfl]

/-- Reversing the bottom-up segment list of `getSelector` yields the
claim's top-down per-prefix segment list. -/
theorem segsRev_reverse (roots : NodeList) (hroots : namesOkList roots = true) :
    ∀ (rp : List Nat),
      (segsRev roots rp).reverse =
        (List.range rp.reverse.length).map
          (fun k => claimSeg roots (rp.reverse.take (k + 1)))
  | [] => by simp [segsRev]
  | i :: rest => by
    simp only [segsRev, List.reverse_cons, segsRev_reverse roots hroots rest]
    rw [codeSeg_eq_claimSeg roots hroots rest.reverse i]
    have hlen2 : (rest.reverse ++ [i]).length = rest.reverse.length + 1 := by
      simp
    rw [hlen2, List.range_succ, List.map_append]
    have hfull : (rest.reverse ++ [i]).take (rest.length + 1) =
        rest.reverse ++ [i] := by
      apply List.take_of_length_le
      simp
    have hpref : ∀ k ∈ List.range rest.reverse.length,
        (rest.reverse ++ [i]).take (k + 1) = rest.reverse.take (k + 1) := by
      intro k hk
      rw [List.take_append_of_le_length]
      simpa using List.mem_range.mp hk
    have hmc : List.map (fun k => claimSeg roots ((rest.reverse ++ [i]).take (k + 1)))
          (List.range rest.reverse.length) =
        List.map (fun k => claimSeg roots (rest.reverse.take (k + 1)))
          (List.range rest.reverse.length) :=
      List.map_congr_left (fun k hk => by rw [hpref k hk])
    rw [hmc]
    simp [hfull]

/-- C9: for every scraped element (addressed by its path from the
document root) in a document whose element names are well formed (none
starts with `#`, the parser's marker for text/comment/doctype nodes),
the reconstructed CSS selector equals the claim's description: one
segment per ancestor top-down joined with `" > "`, each segment the tag
name, suffixed `:nth-child(k)` for every element not named `html`,
`head` or `body`, where `k` is one plus the number of preceding element
siblings (text and comment nodes excluded). -/
theorem selector_reconstruction (roots : NodeList) (path : List Nat)
    (hnames : namesOkList roots = true) :
    getSelector roots path = selectorClaim roots path := by
  unfold getSelector selectorClaim
  rw [segsRev_reverse roots hnames path.reverse]
  simp
/-- Witness for C9 at a concrete input: the selector of the `<a>` at
path `[1, 1, 1, 0]` of the example document matches the claim's
description, and both evaluate to
`html > body > div:nth-child(1) > a:nth-child(1)`. -/
theorem selector_reconstruction_witness :
    namesOkList docSel = true ∧
    getSelector docSel [1, 1, 1, 0] = selectorClaim docSel [1, 1, 1, 0] ∧
    getSelector docSel [1, 1, 1, 0] =
      "html > body > div:nth-child(1) > a:nth-child(1)" :=
  ⟨by decide, selector_reconstruction docSel [1, 1, 1, 0] (by decide), by decide⟩

end BLC
